import Mathlib

/-!
Verification of the orientation-correction logic of `fix_rotate_pdf.py`.

The Python program fixes page orientation in scanned PDF documents.  The
definitions below are a shallow embedding of its decision logic:

* `circularDistance` and `snap_rotation_to_allowed` embed the helper
  `snap_rotation_to_allowed` together with its inner `_distance` function;
* `most_common` embeds `Counter(history).most_common(1)[0][0]`: Python
  counters iterate their keys in first-insertion order and `most_common`
  is stable, so a tie is won by the value seen first in the history;
* `determine_output_path` embeds the output-name search, with the file
  system abstracted as a boolean predicate on file names;
* `Env` packages the external detectors (Tesseract OSD, the text-presence
  probe, the mediapipe pose estimate) and the image operations as oracle
  functions.  Confidences are modelled as rationals: the Python code only
  ever compares confidences against each other and against the constants
  `0.5` and `10.0`, it never computes with them;
* `landscapeStage`, `portraitImage`, `stepA`, `fuseUpdown`,
  `resolveUpdown`, `doubleCheck`, `processPage`, `runPages` and
  `processDocument` embed the per-page pipeline of `process_file`
  stage by stage.  The `*_called` boolean fields record in which branch
  an external detector is actually invoked.
-/

/-- Cyclic distance between two angles, as computed by the inner
`_distance` helper of `snap_rotation_to_allowed`:
`min((a - b) % 360, (b - a) % 360)`.  Python's `%` on a positive modulus
agrees with `Int.emod`. -/
def circularDistance (a b : Int) : Int :=
  min ((a - b) % 360) ((b - a) % 360)

/-- Embeds `snap_rotation_to_allowed`, i.e. Python's
`min(allowed_rotations, key=lambda allowed: _distance(rotation % 360, allowed % 360))`.
`min` with a key keeps the current best element and replaces it only when a
later element has a strictly smaller key, so the first element with minimal
key wins; that is exactly the fold below.  Python's `min` raises
`ValueError` on an empty list; the program only ever calls this function
with `[90, 270]` or `[0, 180]`, and the unreachable empty case is mapped to
the junk value `0`. -/
def snap_rotation_to_allowed (rotation : Int) (allowed : List Int) : Int :=
  match allowed with
  | [] => 0
  | a :: rest =>
      rest.foldl
        (fun best x =>
          if circularDistance (rotation % 360) (x % 360) <
              circularDistance (rotation % 360) (best % 360) then x else best)
        a

/-- A left fold that keeps the current element and replaces it only on a
strictly smaller key returns the first element of minimal key: it is a
member of the list, its key is minimal, and every element strictly before
it has a strictly larger key. -/
theorem foldl_min_spec {α : Type} (k : α → Int) :
    ∀ (l : List α) (a : α),
      (l.foldl (fun best x => if k x < k best then x else best) a) ∈ a :: l ∧
      (∀ b ∈ a :: l,
        k (l.foldl (fun best x => if k x < k best then x else best) a) ≤ k b) ∧
      ∃ l1 l2,
        a :: l = l1 ++ (l.foldl (fun best x => if k x < k best then x else best) a) :: l2 ∧
        ∀ b ∈ l1, k (l.foldl (fun best x => if k x < k best then x else best) a) < k b := by
  intro l
  induction l with
  | nil =>
      intro a
      refine ⟨by simp, ?_, [], [], by simp, by simp⟩
      intro b hb
      simp only [List.foldl_nil]
      rw [List.mem_singleton] at hb
      rw [hb]
  | cons x xs ih =>
      intro a
      simp only [List.foldl_cons]
      by_cases h : k x < k a
      · simp only [if_pos h]
        obtain ⟨hmem, hmin, l1, l2, hdec, hlt⟩ := ih x
        refine ⟨List.mem_cons_of_mem a hmem, ?_, a :: l1, l2, ?_, ?_⟩
        · intro b hb
          rcases List.mem_cons.mp hb with hb | hb
          · rw [hb]
            exact le_trans (hmin x (List.mem_cons_self x xs)) (le_of_lt h)
          · exact hmin b hb
        · rw [hdec, List.cons_append]
        · intro b hb
          rcases List.mem_cons.mp hb with hb | hb
          · rw [hb]
            exact lt_of_le_of_lt (hmin x (List.mem_cons_self x xs)) h
          · exact hlt b hb
      · simp only [if_neg h]
        push_neg at h
        obtain ⟨hmem, hmin, l1, l2, hdec, hlt⟩ := ih a
        set r := List.foldl (fun best x => if k x < k best then x else best) a xs with hrdef
        refine ⟨?_, ?_, ?_⟩
        · rcases List.mem_cons.mp hmem with h1 | h1
          · rw [h1]; exact List.mem_cons_self _ _
          · exact List.mem_cons_of_mem _ (List.mem_cons_of_mem _ h1)
        · intro b hb
          rcases List.mem_cons.mp hb with hb | hb
          · rw [hb]; exact hmin a (List.mem_cons_self a xs)
          · rcases List.mem_cons.mp hb with hb | hb
            · rw [hb]
              exact le_trans (hmin a (List.mem_cons_self a xs)) h
            · exact hmin b (List.mem_cons_of_mem a hb)
        · cases l1 with
          | nil =>
              simp only [List.nil_append] at hdec
              have ha : a = r := ((List.cons.injEq _ _ _ _).mp hdec).1
              refine ⟨[], x :: xs, ?_, by simp⟩
              rw [List.nil_append, ← ha]
          | cons c l1t =>
              simp only [List.cons_append] at hdec
              obtain ⟨hac, hxs⟩ := (List.cons.injEq _ _ _ _).mp hdec
              refine ⟨a :: x :: l1t, l2, ?_, ?_⟩
              · rw [hxs]; simp
              · intro b hb
                have hka : k r < k a := by
                  have hc := hlt c (List.mem_cons_self c l1t)
                  rw [← hac] at hc
                  exact hc
                rcases List.mem_cons.mp hb with hb | hb
                · rw [hb]; exact hka
                · rcases List.mem_cons.mp hb with hb | hb
                  · rw [hb]; exact lt_of_lt_of_le hka h
                  · exact hlt b (List.mem_cons_of_mem c hb)

/-- The code computes the cyclic distance on angles already reduced
modulo 360; this agrees with the distance on the raw angles. -/
theorem circularDistance_mod (a b : Int) :
    circularDistance (a % 360) (b % 360) = circularDistance a b := by
  unfold circularDistance
  rw [← Int.sub_emod a b 360, ← Int.sub_emod b a 360]

/-- Snapping into `[0, 180]` always yields `0` or `180`. -/
theorem snap_updown_cases (r : Int) :
    snap_rotation_to_allowed r [0, 180] = 0 ∨
      snap_rotation_to_allowed r [0, 180] = 180 := by
  simp only [snap_rotation_to_allowed, List.foldl]
  by_cases h : circularDistance (r % 360) (180 % 360) <
      circularDistance (r % 360) (0 % 360)
  · rw [if_pos h]; right; rfl
  · rw [if_neg h]; left; rfl

/-- Snapping into `[90, 270]` always yields `90` or `270`. -/
theorem snap_landscape_cases (r : Int) :
    snap_rotation_to_allowed r [90, 270] = 90 ∨
      snap_rotation_to_allowed r [90, 270] = 270 := by
  simp only [snap_rotation_to_allowed, List.foldl]
  by_cases h : circularDistance (r % 360) (270 % 360) <
      circularDistance (r % 360) (90 % 360)
  · rw [if_pos h]; right; rfl
  · rw [if_neg h]; left; rfl

/-- C7: for every integer angle and every non-empty allowed list,
`snap_rotation_to_allowed` returns a member of the list that minimizes the
circular distance `min ((a - b) % 360) ((b - a) % 360)`, with ties broken
in favour of the first minimal element in the list's iteration order (every
element strictly before the result has strictly larger distance); in
particular `snap(91, [0, 180]) = 180` and `snap(89, [0, 180]) = 0`. -/
theorem snap_rotation_to_allowed_spec :
    (∀ (rotation a : Int) (rest : List Int),
        snap_rotation_to_allowed rotation (a :: rest) ∈ a :: rest ∧
        (∀ b ∈ a :: rest,
          circularDistance rotation (snap_rotation_to_allowed rotation (a :: rest)) ≤
            circularDistance rotation b) ∧
        ∃ l1 l2, a :: rest = l1 ++ snap_rotation_to_allowed rotation (a :: rest) :: l2 ∧
          ∀ b ∈ l1,
            circularDistance rotation (snap_rotation_to_allowed rotation (a :: rest)) <
              circularDistance rotation b) ∧
    snap_rotation_to_allowed 91 [0, 180] = 180 ∧
    snap_rotation_to_allowed 89 [0, 180] = 0 := by
  refine ⟨?_, by decide, by decide⟩
  intro rotation a rest
  obtain ⟨h1, h2, l1, l2, h4, h5⟩ :=
    foldl_min_spec (fun b => circularDistance (rotation % 360) (b % 360)) rest a
  have hs : snap_rotation_to_allowed rotation (a :: rest) =
      rest.foldl
        (fun best x =>
          if circularDistance (rotation % 360) (x % 360) <
              circularDistance (rotation % 360) (best % 360) then x else best)
        a := rfl
  rw [hs]
  refine ⟨h1, ?_, l1, l2, h4, ?_⟩
  · intro b hb
    have hle := h2 b hb
    rwa [circularDistance_mod, circularDistance_mod] at hle
  · intro b hb
    have hlt := h5 b hb
    rwa [circularDistance_mod, circularDistance_mod] at hlt

/-- A left fold that keeps the current element and replaces it only on a
strictly larger key returns the first element of maximal key. -/
theorem foldl_max_spec {α : Type} (k : α → Nat) :
    ∀ (l : List α) (a : α),
      (l.foldl (fun best x => if k best < k x then x else best) a) ∈ a :: l ∧
      (∀ b ∈ a :: l,
        k b ≤ k (l.foldl (fun best x => if k best < k x then x else best) a)) ∧
      ∃ l1 l2,
        a :: l = l1 ++ (l.foldl (fun best x => if k best < k x then x else best) a) :: l2 ∧
        ∀ b ∈ l1, k b < k (l.foldl (fun best x => if k best < k x then x else best) a) := by
  intro l
  induction l with
  | nil =>
      intro a
      refine ⟨by simp, ?_, [], [], by simp, by simp⟩
      intro b hb
      simp only [List.foldl_nil]
      rw [List.mem_singleton] at hb
      rw [hb]
  | cons x xs ih =>
      intro a
      simp only [List.foldl_cons]
      by_cases h : k a < k x
      · simp only [if_pos h]
        obtain ⟨hmem, hmin, l1, l2, hdec, hlt⟩ := ih x
        refine ⟨List.mem_cons_of_mem a hmem, ?_, a :: l1, l2, ?_, ?_⟩
        · intro b hb
          rcases List.mem_cons.mp hb with hb | hb
          · rw [hb]
            exact le_trans (le_of_lt h) (hmin x (List.mem_cons_self x xs))
          · exact hmin b hb
        · rw [hdec, List.cons_append]
        · intro b hb
          rcases List.mem_cons.mp hb with hb | hb
          · rw [hb]
            exact lt_of_lt_of_le h (hmin x (List.mem_cons_self x xs))
          · exact hlt b hb
      · simp only [if_neg h]
        push_neg at h
        obtain ⟨hmem, hmin, l1, l2, hdec, hlt⟩ := ih a
        set r := List.foldl (fun best x => if k best < k x then x else best) a xs with hrdef
        refine ⟨?_, ?_, ?_⟩
        · rcases List.mem_cons.mp hmem with h1 | h1
          · rw [h1]; exact List.mem_cons_self _ _
          · exact List.mem_cons_of_mem _ (List.mem_cons_of_mem _ h1)
        · intro b hb
          rcases List.mem_cons.mp hb with hb | hb
          · rw [hb]; exact hmin a (List.mem_cons_self a xs)
          · rcases List.mem_cons.mp hb with hb | hb
            · rw [hb]
              exact le_trans h (hmin a (List.mem_cons_self a xs))
            · exact hmin b (List.mem_cons_of_mem a hb)
        · cases l1 with
          | nil =>
              simp only [List.nil_append] at hdec
              have ha : a = r := ((List.cons.injEq _ _ _ _).mp hdec).1
              refine ⟨[], x :: xs, ?_, by simp⟩
              rw [List.nil_append, ← ha]
          | cons c l1t =>
              simp only [List.cons_append] at hdec
              obtain ⟨hac, hxs⟩ := (List.cons.injEq _ _ _ _).mp hdec
              refine ⟨a :: x :: l1t, l2, ?_, ?_⟩
              · rw [hxs]; simp
              · intro b hb
                have hka : k a < k r := by
                  have hc := hlt c (List.mem_cons_self c l1t)
                  rw [← hac] at hc
                  exact hc
                rcases List.mem_cons.mp hb with hb | hb
                · rw [hb]; exact hka
                · rcases List.mem_cons.mp hb with hb | hb
                  · rw [hb]; exact lt_of_le_of_lt h hka
                  · exact hlt b (List.mem_cons_of_mem c hb)

/-- The list of distinct values of `l` in order of first occurrence: the
iteration order of the keys of Python's `Counter(l)` (a `dict` subclass,
and `dict` iterates keys in insertion order). -/
def distinctFirst : List Int → List Int
  | [] => []
  | x :: xs => x :: (distinctFirst xs).filter (fun y => decide (y ≠ x))

/-- Embeds `Counter(l).most_common(1)[0][0]`: among the counter's keys (the
distinct values of `l` in first-occurrence order) pick the one with the
largest count; `most_common` is stable, so on a tie the key seen first
wins, which is the fold below (it replaces the current best only on a
strictly larger count).  Python would raise `IndexError` on an empty list;
the program guards every call by non-emptiness and the empty case is mapped
to the junk value `0`. -/
def most_common (l : List Int) : Int :=
  match distinctFirst l with
  | [] => 0
  | v :: vs => vs.foldl (fun best x => if l.count best < l.count x then x else best) v

theorem mem_distinctFirst : ∀ (l : List Int) (y : Int), y ∈ distinctFirst l ↔ y ∈ l := by
  intro l
  induction l with
  | nil => intro y; simp [distinctFirst]
  | cons x xs ih =>
      intro y
      simp only [distinctFirst, List.mem_cons, List.mem_filter, ih y,
        decide_eq_true_eq]
      by_cases hyx : y = x
      · simp [hyx]
      · simp [hyx]

theorem nodup_distinctFirst : ∀ l : List Int, (distinctFirst l).Nodup := by
  intro l
  induction l with
  | nil => simp [distinctFirst]
  | cons x xs ih =>
      simp only [distinctFirst, List.nodup_cons]
      constructor
      · intro hx
        have := (List.mem_filter.mp hx).2
        simp at this
      · exact List.Nodup.filter _ ih

/-- Every member of a list admits a first-occurrence decomposition. -/
theorem first_occurrence_split {a : Int} :
    ∀ {l : List Int}, a ∈ l → ∃ l1 l2, l = l1 ++ a :: l2 ∧ a ∉ l1 := by
  intro l
  induction l with
  | nil => intro h; cases h
  | cons x xs ih =>
      intro h
      by_cases hax : a = x
      · exact ⟨[], xs, by rw [hax]; simp, by simp⟩
      · have hmem : a ∈ xs := by
          rcases List.mem_cons.mp h with h1 | h1
          · exact absurd h1 hax
          · exact h1
        obtain ⟨l1, l2, hdec, hnot⟩ := ih hmem
        refine ⟨x :: l1, l2, by rw [hdec]; simp, ?_⟩
        intro hmem2
        rcases List.mem_cons.mp hmem2 with h1 | h1
        · exact hax h1
        · exact hnot h1

/-- First-occurrence order is preserved by `distinctFirst`: if `mc` first
occurs after the prefix `l1`, then `distinctFirst` lists `mc` after a
prefix consisting of values of `l1` — and every value of `l1` lies in that
prefix. -/
theorem distinctFirst_split :
    ∀ (l1 : List Int) (mc : Int) (l2 : List Int), mc ∉ l1 →
      ∃ d1 d2, distinctFirst (l1 ++ mc :: l2) = d1 ++ mc :: d2 ∧
        ∀ b ∈ l1, b ∈ d1 := by
  intro l1
  induction l1 with
  | nil =>
      intro mc l2 _
      exact ⟨[], (distinctFirst l2).filter (fun y => decide (y ≠ mc)), rfl, by simp⟩
  | cons x l1t ih =>
      intro mc l2 hnot
      have hmcx : mc ≠ x := fun h => hnot (h ▸ List.mem_cons_self x l1t)
      have hnot' : mc ∉ l1t := fun h => hnot (List.mem_cons_of_mem x h)
      obtain ⟨d1, d2, hdec, hsub⟩ := ih mc l2 hnot'
      refine ⟨x :: d1.filter (fun y => decide (y ≠ x)),
        d2.filter (fun y => decide (y ≠ x)), ?_, ?_⟩
      · show x :: (distinctFirst (l1t ++ mc :: l2)).filter (fun y => decide (y ≠ x)) = _
        rw [hdec, List.filter_append, List.filter_cons]
        simp only [hmcx, decide_eq_true_eq, if_pos hmcx]
        simp
      · intro b hb
        rcases List.mem_cons.mp hb with hb | hb
        · rw [hb]; exact List.mem_cons_self _ _
        · by_cases hbx : b = x
          · rw [hbx]; exact List.mem_cons_self _ _
          · refine List.mem_cons_of_mem _ (List.mem_filter.mpr ⟨hsub b hb, by simp [hbx]⟩)

/-- In a duplicate-free list a decomposition at a given element is unique. -/
theorem nodup_split_unique :
    ∀ (d1 : List Int) (mc : Int) (d2 e1 e2 : List Int),
      (d1 ++ mc :: d2).Nodup → d1 ++ mc :: d2 = e1 ++ mc :: e2 → d1 = e1 := by
  intro d1
  induction d1 with
  | nil =>
      intro mc d2 e1 e2 hnodup heq
      cases e1 with
      | nil => rfl
      | cons c e1t =>
          simp only [List.nil_append, List.cons_append] at heq
          obtain ⟨hmc, hd2⟩ := (List.cons.injEq _ _ _ _).mp heq
          exfalso
          have : mc ∈ d2 := by
            rw [hd2]
            exact List.mem_append_right _ (List.mem_cons_self _ _)
          simp only [List.nil_append, List.nodup_cons] at hnodup
          exact hnodup.1 this
  | cons a d1t ih =>
      intro mc d2 e1 e2 hnodup heq
      cases e1 with
      | nil =>
          simp only [List.cons_append, List.nil_append] at heq
          obtain ⟨hmc, hd2⟩ := (List.cons.injEq _ _ _ _).mp heq
          exfalso
          simp only [List.cons_append, List.nodup_cons] at hnodup
          apply hnodup.1
          rw [hmc]
          exact List.mem_append_right _ (List.mem_cons_self _ _)
      | cons c e1t =>
          simp only [List.cons_append] at heq
          obtain ⟨hac, hrest⟩ := (List.cons.injEq _ _ _ _).mp heq
          simp only [List.cons_append, List.nodup_cons] at hnodup
          rw [hac, ih mc d2 e1t e2 hnodup.2 hrest]

/-- `most_common` of a non-empty list is a member of the list whose count
is maximal, and every value occurring strictly before the first occurrence
of the result has a strictly smaller count (the first-seen tie-break of
Python's stable `most_common`). -/
theorem most_common_spec (l : List Int) (hne : l ≠ []) :
    most_common l ∈ l ∧
    (∀ b ∈ l, l.count b ≤ l.count (most_common l)) ∧
    ∃ l1 l2, l = l1 ++ most_common l :: l2 ∧
      ∀ b ∈ l1, l.count b < l.count (most_common l) := by
  cases hl : l with
  | nil => exact absurd hl hne
  | cons x xs =>
      rw [← hl]
      have hdf : distinctFirst l = x :: (distinctFirst xs).filter (fun y => decide (y ≠ x)) := by
        rw [hl]; rfl
      have hmc : most_common l =
          ((distinctFirst xs).filter (fun y => decide (y ≠ x))).foldl
            (fun best y => if l.count best < l.count y then y else best) x := by
        unfold most_common
        rw [hdf]
      obtain ⟨hmem, hmax, d1, d2, hdec, hlt⟩ :=
        foldl_max_spec (fun b => l.count b) ((distinctFirst xs).filter (fun y => decide (y ≠ x))) x
      rw [← hmc] at hmem hmax hdec hlt
      rw [← hdf] at hmem hmax hdec
      have hmeml : most_common l ∈ l := (mem_distinctFirst l _).mp hmem
      have hmaxl : ∀ b ∈ l, l.count b ≤ l.count (most_common l) := by
        intro b hb
        exact hmax b ((mem_distinctFirst l b).mpr hb)
      refine ⟨hmeml, hmaxl, ?_⟩
      obtain ⟨l1, l2, hsplit, hnotin⟩ := first_occurrence_split hmeml
      refine ⟨l1, l2, hsplit, ?_⟩
      obtain ⟨e1, e2, hdec2, hsub⟩ := distinctFirst_split l1 (most_common l) l2 hnotin
      rw [← hsplit] at hdec2
      have he : d1 = e1 :=
        nodup_split_unique d1 (most_common l) d2 e1 e2 (hdec ▸ nodup_distinctFirst l)
          (hdec.symm.trans hdec2)
      intro b hb
      have hbd1 : b ∈ d1 := he ▸ hsub b hb
      exact hlt b hbd1

/-- The candidate output names tried by `determine_output_path`, in order:
`stem_rot`, then `stem_rot_1` … `stem_rot_999` (Python's `range(1, 1_000)`),
each with the original suffix. -/
def outputCandidates (stem suffix : String) : List String :=
  (stem ++ "_rot" ++ suffix) ::
    (List.range' 1 999).map (fun idx => stem ++ "_rot_" ++ toString idx ++ suffix)

/-- Embeds `determine_output_path`.  The file system is abstracted as the
predicate `ex` (true iff a file with that name exists); the input path is
abstracted as its stem and suffix.  `none` models the `FileExistsError`
raised when every candidate exists. -/
def determine_output_path (ex : String → Bool) (stem suffix : String) : Option String :=
  let base := stem ++ "_rot" ++ suffix
  if !ex base then some base
  else
    (List.range' 1 999).findSome? (fun idx =>
      let candidate := stem ++ "_rot_" ++ toString idx ++ suffix
      if !ex candidate then some candidate else none)

/-- The specification's description of the output-name search: the first
candidate in the bounded sequence that does not already exist. -/
def firstFreeOutput (ex : String → Bool) (stem suffix : String) : Option String :=
  (outputCandidates stem suffix).find? (fun c => !ex c)

theorem find_map_eq_findSome {α β : Type} (p : β → Bool) (f : α → β) :
    ∀ l : List α,
      (l.map f).find? p = l.findSome? (fun a => if p (f a) then some (f a) else none) := by
  intro l
  induction l with
  | nil => simp
  | cons a l ih =>
      simp only [List.map_cons, List.findSome?_cons]
      by_cases h : p (f a)
      · simp [List.find?_cons_of_pos _ h, h]
      · simp [List.find?_cons_of_neg _ h, h, ih]

/-- C9: `determine_output_path` returns the first non-existing name in the
sequence `stem_rot`, `stem_rot_1`, …, `stem_rot_999`; it returns the fatal
error (`FileExistsError`, modelled as `none`) exactly when every candidate
in that bounded sequence exists; and when `doc_rot.pdf` and `doc_rot_1.pdf`
both exist the result for `doc.pdf` is `doc_rot_2.pdf`. -/
theorem determine_output_path_spec :
    (∀ (ex : String → Bool) (stem suffix : String),
        determine_output_path ex stem suffix = firstFreeOutput ex stem suffix) ∧
    (∀ (ex : String → Bool) (stem suffix : String),
        determine_output_path ex stem suffix = none ↔
          ∀ c ∈ outputCandidates stem suffix, ex c = true) ∧
    determine_output_path
        (fun s => s == "doc_rot.pdf" || s == "doc_rot_1.pdf") "doc" ".pdf" =
      some "doc_rot_2.pdf" := by
  have key : ∀ (ex : String → Bool) (stem suffix : String),
      determine_output_path ex stem suffix = firstFreeOutput ex stem suffix := by
    intro ex stem suffix
    unfold determine_output_path firstFreeOutput outputCandidates
    by_cases h : ex (stem ++ "_rot" ++ suffix)
    · simp only [h, Bool.not_true, Bool.false_eq_true, if_false]
      rw [List.find?_cons_of_neg _ (by simp [h])]
      rw [find_map_eq_findSome (fun c => !ex c) (fun idx => stem ++ "_rot_" ++ toString idx ++ suffix)]
    · simp only [h, Bool.not_false, if_true]
      rw [List.find?_cons_of_pos _ (by simp [h])]
  refine ⟨key, ?_, ?_⟩
  · intro ex stem suffix
    rw [key, firstFreeOutput, List.find?_eq_none]
    constructor
    · intro h c hc
      have := h c hc
      simp at this
      exact this
    · intro h c hc
      simp [h c hc]
  · rw [key]
    decide

/-- The external collaborators of `process_file`, as oracle functions over
an opaque image type: page dimensions, `has_text_content` (the
text-presence probe), `detect_rotation_osd` (Tesseract OSD, returning a
rotation hint and a confidence), `detect_pose_up_down` (the mediapipe pose
estimate) and PIL's `Image.rotate` with `expand=True`.  All detector
functions are deterministic functions of the image, matching the fact that
the Python code may call them several times on the same image and relies
on consistent answers only up to its own branching. -/
structure Env (Image : Type) where
  width : Image → Nat
  height : Image → Nat
  hasText : Image → Bool
  osd : Image → Int × ℚ
  pose : Image → Int × ℚ
  rotate : Image → Int → Image

/-- Result of the landscape-normalization stage (`process_file` step 1).
`osd_called` records whether the landscape OSD call was issued. -/
structure LandscapeResult where
  is_portrait : Bool
  primary_rot : Int
  primary_conf : ℚ
  osd_called : Bool

/-- Step 1 of `process_file`: `is_portrait = (height >= width)`; a portrait
page gets `(primary_rot, primary_conf) = (0, 10.0)` without any OSD call;
a landscape page calls OSD on the raw image and snaps its hint into
`[90, 270]`, keeping the OSD confidence. -/
def landscapeStage {Image : Type} (env : Env Image) (img : Image) : LandscapeResult :=
  if env.height img ≥ env.width img then
    ⟨true, 0, 10, false⟩
  else
    ⟨false, snap_rotation_to_allowed (env.osd img).1 [90, 270], (env.osd img).2, true⟩

/-- `portrait_img = img.rotate(-primary_rot, expand=True) if primary_rot else img`. -/
def portraitImage {Image : Type} (env : Env Image) (img : Image) : Image :=
  if (landscapeStage env img).primary_rot ≠ 0 then
    env.rotate img (-(landscapeStage env img).primary_rot)
  else img

/-- Result of step 2's gated OSD call (`rot, conf = 0, 0.0`, overwritten by
`detect_rotation_osd(portrait_img)` only when `has_text_content` is true). -/
structure StepAResult where
  rot : Int
  conf : ℚ
  osd_called : Bool

def stepA {Image : Type} (env : Env Image) (pimg : Image) : StepAResult :=
  if env.hasText pimg then ⟨(env.osd pimg).1, (env.osd pimg).2, true⟩
  else ⟨0, 0, false⟩

/-- Result of step 2 after the optional pose fallback. -/
structure UpdownFusion where
  rot : Int
  conf : ℚ
  osd_called : Bool
  pose_called : Bool
  pose_adopted : Bool

/-- Step 2 of `process_file`: if the gated OSD confidence is below the
threshold, the pose estimator is consulted unless text was detected and the
confidence is at least `0.5`; its result replaces `(rot, conf)` only when
its confidence is strictly larger. -/
def fuseUpdown {Image : Type} (env : Env Image) (T : ℚ) (pimg : Image) : UpdownFusion :=
  let a := stepA env pimg
  if a.conf < T then
    let run_pose := !(env.hasText pimg && decide (a.conf ≥ 1/2))
    if run_pose then
      let p := env.pose pimg
      if p.2 > a.conf then ⟨p.1, p.2, a.osd_called, true, true⟩
      else ⟨a.rot, a.conf, a.osd_called, true, false⟩
    else ⟨a.rot, a.conf, a.osd_called, false, false⟩
  else ⟨a.rot, a.conf, a.osd_called, false, false⟩

/-- Result of the fallback decision (`process_file` lines 216-221). -/
structure FallbackResult where
  applied_updown : Int
  used_fallback : Bool

/-- `if conf < CONF_THRESHOLD and high_conf_updown_rots: applied_updown =
Counter(...).most_common(1)[0][0]` else snap the fused rotation into
`[0, 180]`. -/
def resolveUpdown (T : ℚ) (rot : Int) (conf : ℚ) (history : List Int) : FallbackResult :=
  if conf < T ∧ history ≠ [] then ⟨most_common history, true⟩
  else ⟨snap_rotation_to_allowed rot [0, 180], false⟩

/-- Result of the double-check stage (`process_file` lines 228-254).
`ran` records whether the stage was entered, `fresh_osd` whether the extra
OSD call on the un-rotated image was issued, `reverted` whether the 180
rotation was cancelled. -/
structure CheckResult where
  applied_updown : Int
  ran : Bool
  fresh_osd : Bool
  reverted : Bool

/-- The double-check: entered only for a portrait page with a nonzero
`applied_updown`.  `score_original` is the fused confidence if the fused
hint is `0` and `0.0` otherwise — overwritten by a fresh OSD call on the
un-rotated image when the text probe reported no text.  `score_rotated`
comes from a fresh OSD call on the image rotated by `applied_updown`.
The rotation is cancelled iff `score_original > score_rotated`. -/
def doubleCheck {Image : Type} (env : Env Image) (is_portrait : Bool) (rot : Int)
    (conf : ℚ) (pimg : Image) (applied_updown : Int) : CheckResult :=
  if is_portrait ∧ applied_updown ≠ 0 then
    let score1 : ℚ := if rot = 0 then conf else 0
    let score_original : ℚ :=
      if env.hasText pimg then score1
      else if (env.osd pimg).1 = 0 then (env.osd pimg).2 else 0
    let rotated := env.rotate pimg applied_updown
    let score_rotated : ℚ := if (env.osd rotated).1 = 0 then (env.osd rotated).2 else 0
    if score_original > score_rotated then ⟨0, true, !env.hasText pimg, true⟩
    else ⟨applied_updown, true, !env.hasText pimg, false⟩
  else ⟨applied_updown, false, false, false⟩

/-- One entry of the low-confidence report list (`process_file` line 264):
`(i, primary_rot, applied_updown, conf, used_fallback, total_rotation)`. -/
structure ReportEntry where
  page : Nat
  primary_rot : Int
  applied_updown : Int
  conf : ℚ
  used_fallback : Bool
  total_rotation : Int
deriving DecidableEq

/-- Everything `process_file` computes for one page, plus the
instrumentation flags of the individual stages.  `applied_before_check` is
the `applied_updown` value as of the fallback decision (the value appended
to the history when the confidence is at or above the threshold);
`applied_updown` is the final value after the double-check.  `history` is
the value of `high_conf_updown_rots` after the page. -/
structure PageOutcome where
  is_portrait : Bool
  primary_rot : Int
  primary_conf : ℚ
  landscape_osd_called : Bool
  rot : Int
  conf : ℚ
  stepA_osd_called : Bool
  pose_called : Bool
  pose_adopted : Bool
  used_fallback : Bool
  applied_before_check : Int
  dc_ran : Bool
  dc_fresh_osd : Bool
  dc_reverted : Bool
  applied_updown : Int
  total_rotation : Int
  new_rotation : Int
  changed : Bool
  report : Option ReportEntry
  history : List Int

/-- The body of `process_file`'s per-page loop (source lines 180-264):
landscape normalization, upright/inverted fusion, fallback, the
threshold-gated append to `high_conf_updown_rots` (which happens before
the double-check), the double-check, composition of the total and new
rotations, the changed flag and the low-confidence report entry. -/
def processPage {Image : Type} (env : Env Image) (T : ℚ) (i : Nat) (img : Image)
    (current_rotation : Int) (history : List Int) : PageOutcome :=
  let ls := landscapeStage env img
  let pimg := portraitImage env img
  let fu := fuseUpdown env T pimg
  let fb := resolveUpdown T fu.rot fu.conf history
  let history1 := if fu.conf ≥ T then history ++ [fb.applied_updown] else history
  let dc := doubleCheck env ls.is_portrait fu.rot fu.conf pimg fb.applied_updown
  let total_rotation := (ls.primary_rot + dc.applied_updown) % 360
  let new_rotation := (current_rotation + total_rotation) % 360
  { is_portrait := ls.is_portrait
    primary_rot := ls.primary_rot
    primary_conf := ls.primary_conf
    landscape_osd_called := ls.osd_called
    rot := fu.rot
    conf := fu.conf
    stepA_osd_called := fu.osd_called
    pose_called := fu.pose_called
    pose_adopted := fu.pose_adopted
    used_fallback := fb.used_fallback
    applied_before_check := fb.applied_updown
    dc_ran := dc.ran
    dc_fresh_osd := dc.fresh_osd
    dc_reverted := dc.reverted
    applied_updown := dc.applied_updown
    total_rotation := total_rotation
    new_rotation := new_rotation
    changed := decide (new_rotation ≠ current_rotation)
    report :=
      if fu.conf < T ∨ ls.primary_conf < T then
        some ⟨i, ls.primary_rot, dc.applied_updown, fu.conf, fb.used_fallback, total_rotation⟩
      else none
    history := history1 }

/-- The per-page loop of `process_file` as a left fold over the pages
(pairs of raster image and pre-existing `/Rotate` value), collecting each
page's outcome.  The history threaded from page to page is exactly
`high_conf_updown_rots`. -/
def runPages {Image : Type} (env : Env Image) (T : ℚ) :
    List (Image × Int) → Nat → List Int → List PageOutcome
  | [], _, _ => []
  | pc :: rest, i, h =>
      let o := processPage env T i pc.1 pc.2 h
      o :: runPages env T rest (i + 1) o.history

/-- The value of `high_conf_updown_rots` after processing the given pages,
starting from page number `i` and history `h`. -/
def historyAt {Image : Type} (env : Env Image) (T : ℚ) :
    List (Image × Int) → Nat → List Int → List Int
  | [], _, h => h
  | pc :: rest, i, h => historyAt env T rest (i + 1) (processPage env T i pc.1 pc.2 h).history

/-- The document-level aggregates of `process_file`: the per-page outcomes
(pages are numbered from 1 and the history starts empty), the number of
changed pages and the low-confidence report list. -/
structure DocResult where
  outcomes : List PageOutcome
  changed : Nat
  low : List ReportEntry

def processDocument {Image : Type} (env : Env Image) (T : ℚ)
    (pages : List (Image × Int)) : DocResult :=
  let os := runPages env T pages 1 []
  ⟨os, (os.filter (fun o => o.changed)).length, os.filterMap (fun o => o.report)⟩

/-- C6: a page is portrait-classified iff its height is at least its width;
a portrait page issues no landscape-stage OSD call and gets
`(primary_rot, primary_conf) = (0, 10.0)`; a landscape page gets
`primary_rot` equal to the OSD hint snapped into `{90, 270}` (hence always
90 or 270) with the detector's confidence; and the image is rotated by
`-primary_rot` before the upright/inverted stage exactly when
`primary_rot` is nonzero — equivalently, exactly for landscape pages. -/
theorem landscape_stage_spec {Image : Type} (env : Env Image) (img : Image) :
    ((landscapeStage env img).is_portrait = true ↔ env.width img ≤ env.height img) ∧
    (landscapeStage env img).osd_called = !(landscapeStage env img).is_portrait ∧
    (landscapeStage env img).primary_rot =
      (if env.width img ≤ env.height img then 0
       else snap_rotation_to_allowed (env.osd img).1 [90, 270]) ∧
    (landscapeStage env img).primary_conf =
      (if env.width img ≤ env.height img then 10 else (env.osd img).2) ∧
    ((landscapeStage env img).primary_rot = 0 ↔ (landscapeStage env img).is_portrait = true) ∧
    portraitImage env img =
      (if (landscapeStage env img).primary_rot ≠ 0 then
        env.rotate img (-(landscapeStage env img).primary_rot)
      else img) ∧
    (∀ r : Int, snap_rotation_to_allowed r [90, 270] = 90 ∨
        snap_rotation_to_allowed r [90, 270] = 270) := by
  by_cases h : env.height img ≥ env.width img
  · refine ⟨?_, ?_, ?_, ?_, ?_, rfl, snap_landscape_cases⟩ <;>
      simp [landscapeStage, h, ge_iff_le]
  · have h' : ¬ env.width img ≤ env.height img := h
    refine ⟨?_, ?_, ?_, ?_, ?_, rfl, snap_landscape_cases⟩
    · simp [landscapeStage, h, h']
    · simp [landscapeStage, h]
    · simp [landscapeStage, h, h']
    · simp [landscapeStage, h, h']
    · simp only [landscapeStage, ge_iff_le, if_neg h]
      constructor
      · intro h0
        exfalso
        rcases snap_landscape_cases (env.osd img).1 with e | e <;> rw [e] at h0 <;> cases h0
      · intro h1
        cases h1

/-- C5: in the upright/inverted stage the OSD detector is invoked iff the
text probe reports text (otherwise `(rot, conf) = (0, 0.0)`); the pose
estimator is consulted exactly when the gated confidence is below the
threshold and additionally either no text was detected or the confidence
is below `0.5`; and the pose result replaces `(rot, conf)` if and only if
the pose confidence strictly exceeds the current confidence. -/
theorem updown_fusion_spec {Image : Type} (env : Env Image) (T : ℚ) (pimg : Image) :
    ((stepA env pimg).osd_called = env.hasText pimg) ∧
    ((stepA env pimg).rot = (if env.hasText pimg then (env.osd pimg).1 else 0)) ∧
    ((stepA env pimg).conf = (if env.hasText pimg then (env.osd pimg).2 else 0)) ∧
    ((fuseUpdown env T pimg).pose_called = true ↔
      (stepA env pimg).conf < T ∧
        (env.hasText pimg = false ∨ (stepA env pimg).conf < 1/2)) ∧
    ((fuseUpdown env T pimg).rot =
      (if (fuseUpdown env T pimg).pose_called = true ∧
          (env.pose pimg).2 > (stepA env pimg).conf
       then (env.pose pimg).1 else (stepA env pimg).rot)) ∧
    ((fuseUpdown env T pimg).conf =
      (if (fuseUpdown env T pimg).pose_called = true ∧
          (env.pose pimg).2 > (stepA env pimg).conf
       then (env.pose pimg).2 else (stepA env pimg).conf)) ∧
    ((fuseUpdown env T pimg).pose_adopted = true ↔
      (fuseUpdown env T pimg).pose_called = true ∧
        (env.pose pimg).2 > (stepA env pimg).conf) := by
  refine ⟨?_, ?_, ?_, ?_⟩
  · by_cases ht : env.hasText pimg <;> simp [stepA, ht]
  · by_cases ht : env.hasText pimg <;> simp [stepA, ht]
  · by_cases ht : env.hasText pimg <;> simp [stepA, ht]
  · by_cases h1 : (stepA env pimg).conf < T
    · by_cases h2 : (env.hasText pimg && decide ((stepA env pimg).conf ≥ 1/2)) = true
      · have hcases := (Bool.and_eq_true _ _).mp h2
        have ht : env.hasText pimg = true := hcases.1
        have hge : (stepA env pimg).conf ≥ 1/2 := of_decide_eq_true hcases.2
        have hnot : ¬ ((stepA env pimg).conf < T ∧
            (env.hasText pimg = false ∨ (stepA env pimg).conf < 1/2)) := by
          rintro ⟨-, hc | hc⟩
          · rw [ht] at hc; cases hc
          · exact absurd hc (not_lt.mpr hge)
        simp only [fuseUpdown, if_pos h1, h2, Bool.not_true, Bool.false_eq_true, if_false]
        simp [hnot]
        intro _
        exact ⟨ht, by simpa using hge⟩
      · have hf2 : (env.hasText pimg && decide ((stepA env pimg).conf ≥ 1/2)) = false :=
          Bool.eq_false_iff.mpr h2
        have hcond : env.hasText pimg = false ∨ (stepA env pimg).conf < 1/2 := by
          rcases Bool.eq_false_or_eq_true (env.hasText pimg) with htt | hft
          · right
            by_contra hge
            apply h2
            rw [htt, Bool.true_and, decide_eq_true_eq]
            exact not_lt.mp hge
          · exact Or.inl hft
        by_cases h3 : (env.pose pimg).2 > (stepA env pimg).conf
        · simp only [fuseUpdown, if_pos h1, hf2, Bool.not_false, if_true, if_pos h3]
          simp [h1, h3]
          simpa using hcond
        · simp only [fuseUpdown, if_pos h1, hf2, Bool.not_false, if_true, if_neg h3]
          simp [h1, h3]
          simpa using hcond
    · have hnot : ¬ ((stepA env pimg).conf < T ∧
          (env.hasText pimg = false ∨ (stepA env pimg).conf < 1/2)) := fun hc => h1 hc.1
      simp only [fuseUpdown, if_neg h1]
      simp [hnot, h1]

/-- A concrete environment over `Image := Int` (interpreting an image as
an accumulated rotation angle, with `rotate` adding the angle): a 2x1
landscape page whose raw-image OSD reads `(90, 0.0)` and whose
portrait-normalized image reads `(0, 8.0)` with text present. -/
def envC1 : Env Int :=
  { width := fun _ => 2
    height := fun _ => 1
    hasText := fun _ => true
    osd := fun im => if im = 0 then ((90 : Int), (0 : ℚ)) else ((0 : Int), (8 : ℚ))
    pose := fun _ => ((0 : Int), (0 : ℚ))
    rotate := fun im a => im + a }

/-- C1, counterexample: a page whose post-fusion upright/inverted
confidence is `8.0`, at or above the threshold `5.0`, nevertheless gets a
low-confidence report entry (because its landscape-stage `primary_conf` is
`0.0`), so "an entry is emitted if and only if the post-fusion
upright/inverted confidence is below the threshold" is false on the code. -/
theorem report_gate_counterexample :
    (5 : ℚ) ≤ (processPage envC1 5 1 (0 : Int) 0 []).conf ∧
    (processPage envC1 5 1 (0 : Int) 0 []).report.isSome = true := by
  decide

/-- C1 (amended): a report entry is emitted iff the post-fusion confidence
is below the threshold OR the landscape-stage primary confidence is below
the threshold, and the entry consists of the fields `(page_index,
primary_rot, applied_updown, conf, fallback_used, total_rotation)`. -/
theorem report_gate_amended {Image : Type} (env : Env Image) (T : ℚ) (i : Nat)
    (img : Image) (cur : Int) (hist : List Int) :
    (processPage env T i img cur hist).report =
      (if (processPage env T i img cur hist).conf < T ∨
          (processPage env T i img cur hist).primary_conf < T then
        some ⟨i, (processPage env T i img cur hist).primary_rot,
          (processPage env T i img cur hist).applied_updown,
          (processPage env T i img cur hist).conf,
          (processPage env T i img cur hist).used_fallback,
          (processPage env T i img cur hist).total_rotation⟩
      else none) := by
  rfl

/-- The amended description of the double-check's first score: the
confidence that the un-rotated portrait image is upright is the
post-fusion confidence if the post-fusion hint is `0` and `0.0`
otherwise — except that when the text probe reported no text, a fresh OSD
call on the un-rotated image supplies hint and confidence instead. -/
def scoreOriginalSpec {Image : Type} (env : Env Image) (T : ℚ) (img : Image) : ℚ :=
  if env.hasText (portraitImage env img) then
    (if (fuseUpdown env T (portraitImage env img)).rot = 0 then
      (fuseUpdown env T (portraitImage env img)).conf else 0)
  else
    (if (env.osd (portraitImage env img)).1 = 0 then
      (env.osd (portraitImage env img)).2 else 0)

/-- The double-check's second score: a fresh OSD call on the image rotated
by the candidate angle, scored by its confidence if its hint is `0` and by
`0.0` otherwise. -/
def scoreRotatedSpec {Image : Type} (env : Env Image) (img : Image)
    (applied : Int) : ℚ :=
  if (env.osd (env.rotate (portraitImage env img) applied)).1 = 0 then
    (env.osd (env.rotate (portraitImage env img) applied)).2 else 0

/-- C2 (amended): the double-check runs exactly when the page is
portrait-classified and the fallback-stage `applied_updown` is nonzero
(in a document run that value is always `0` or `180`); it reverts — forcing
the final `applied_updown` to `0` — if and only if `score_original >
score_rotated`, where `score_original` is computed from the POST-FUSION
`(rot, conf)` (which the pose fallback may have overwritten), not from the
Step-A OCR measurement, falling back to a fresh OSD call when no text was
detected, and `score_rotated` comes from a fresh OSD call on the rotated
image. -/
theorem double_check_amended {Image : Type} (env : Env Image) (T : ℚ) (i : Nat)
    (img : Image) (cur : Int) (hist : List Int) :
    ((processPage env T i img cur hist).dc_ran = true ↔
      (processPage env T i img cur hist).is_portrait = true ∧
        (processPage env T i img cur hist).applied_before_check ≠ 0) ∧
    ((processPage env T i img cur hist).dc_reverted = true ↔
      (processPage env T i img cur hist).dc_ran = true ∧
        scoreOriginalSpec env T img >
          scoreRotatedSpec env img (processPage env T i img cur hist).applied_before_check) ∧
    ((processPage env T i img cur hist).applied_updown =
      if (processPage env T i img cur hist).dc_reverted = true then 0
      else (processPage env T i img cur hist).applied_before_check) := by
  simp only [processPage]
  by_cases hdc : (landscapeStage env img).is_portrait = true ∧
      (resolveUpdown T (fuseUpdown env T (portraitImage env img)).rot
        (fuseUpdown env T (portraitImage env img)).conf hist).applied_updown ≠ 0
  · by_cases hsc : scoreOriginalSpec env T img >
        scoreRotatedSpec env img
          (resolveUpdown T (fuseUpdown env T (portraitImage env img)).rot
            (fuseUpdown env T (portraitImage env img)).conf hist).applied_updown
    · simp only [doubleCheck, if_pos hdc]
      rw [if_pos (by
        have := hsc
        simp only [scoreOriginalSpec, scoreRotatedSpec] at this
        exact this)]
      simp [hdc, hsc]
    · simp only [doubleCheck, if_pos hdc]
      rw [if_neg (by
        have := hsc
        simp only [scoreOriginalSpec, scoreRotatedSpec] at this
        exact this)]
      simp [hdc, hsc]
  · simp only [doubleCheck, if_neg hdc]
    simp [hdc]

/-- A concrete environment over `Image := Int`: a portrait page with text
whose Step-A OSD on the un-rotated image reads `(0, 0.3)`, whose pose
estimate reads `(180, 10.0)` (adopted, since `0.3 < 0.5` and `10 > 0.3`),
and whose OSD on the 180-rotated image reads `(0, 0.2)`. -/
def envC2 : Env Int :=
  { width := fun _ => 1
    height := fun _ => 2
    hasText := fun _ => true
    osd := fun im => if im = 180 then ((0 : Int), (1/5 : ℚ)) else ((0 : Int), (3/10 : ℚ))
    pose := fun _ => ((180 : Int), (10 : ℚ))
    rotate := fun im a => im + a }

/-- C2, counterexample: the Step-A OCR measurement has hint `0` and
confidence `0.3`, the fresh OCR on the 180-rotated image has hint `0` and
confidence `0.2`; under the claim's scoring rule `score_original = 0.3 >
0.2 = score_rotated`, so the claim demands a revert to `applied_updown =
0` — but the code scores the un-rotated image with the post-fusion values
(here the adopted pose hint `180`, scored `0`), does not revert, and keeps
`applied_updown = 180`. -/
theorem double_check_counterexample :
    (stepA envC2 (portraitImage envC2 0)).rot = 0 ∧
    (stepA envC2 (portraitImage envC2 0)).conf = 3/10 ∧
    (envC2.osd (envC2.rotate (portraitImage envC2 0) 180)).1 = 0 ∧
    (envC2.osd (envC2.rotate (portraitImage envC2 0) 180)).2 = 1/5 ∧
    (processPage envC2 5 1 (0 : Int) 0 []).dc_ran = true ∧
    (processPage envC2 5 1 (0 : Int) 0 []).dc_reverted = false ∧
    (processPage envC2 5 1 (0 : Int) 0 []).applied_updown = 180 := by
  have hpimg : portraitImage envC2 0 = 0 := rfl
  have hstep : stepA envC2 0 = ⟨0, 3/10, true⟩ := rfl
  have hfuse : fuseUpdown envC2 5 0 = ⟨180, 10, true, true, true⟩ := by
    simp only [fuseUpdown, hstep]
    rw [if_pos (by norm_num : (3/10 : ℚ) < 5)]
    rw [decide_eq_false (by norm_num : ¬ ((3/10 : ℚ) ≥ 1/2))]
    norm_num [envC2]
  have hls : landscapeStage envC2 0 = ⟨true, 0, 10, false⟩ := rfl
  have hfb : resolveUpdown 5 180 10 [] = ⟨180, false⟩ := by
    rw [resolveUpdown, if_neg (fun hc => absurd hc.1 (by norm_num))]
    have : snap_rotation_to_allowed 180 [0, 180] = 180 := by decide
    rw [this]
  have hdc : doubleCheck envC2 true (180 : Int) (10 : ℚ) (0 : Int) 180 =
      ⟨180, true, false, false⟩ := by
    rw [doubleCheck, if_pos ⟨rfl, by decide⟩]
    norm_num [envC2]
  refine ⟨rfl, rfl, rfl, rfl, ?_, ?_, ?_⟩ <;>
    simp only [processPage, hpimg, hfuse, hls, hfb, hdc]

/-- C3: for every page whose post-fusion confidence is strictly below the
threshold while the fallback history is non-empty, the fallback stage
resolves `applied_updown` to `most_common` of the history — a member of
the history with maximal count, any value occurring before its first
occurrence having a strictly smaller count (the first-seen tie-break) —
regardless of the page's own raw signal, and marks the page
`used_fallback`; in particular when the majority value is `0` the page's
final `applied_updown` (after the double-check, which a zero angle never
triggers) is `0`. -/
theorem fallback_majority_spec {Image : Type} (env : Env Image) (T : ℚ) (i : Nat)
    (img : Image) (cur : Int) (hist : List Int)
    (hne : hist ≠ [])
    (hconf : (processPage env T i img cur hist).conf < T) :
    (processPage env T i img cur hist).used_fallback = true ∧
    (processPage env T i img cur hist).applied_before_check = most_common hist ∧
    most_common hist ∈ hist ∧
    (∀ b ∈ hist, hist.count b ≤ hist.count (most_common hist)) ∧
    (∃ l1 l2, hist = l1 ++ most_common hist :: l2 ∧
      ∀ b ∈ l1, hist.count b < hist.count (most_common hist)) ∧
    (most_common hist = 0 → (processPage env T i img cur hist).applied_updown = 0) := by
  have hconf' : (fuseUpdown env T (portraitImage env img)).conf < T := hconf
  have hfb : resolveUpdown T (fuseUpdown env T (portraitImage env img)).rot
      (fuseUpdown env T (portraitImage env img)).conf hist =
      ⟨most_common hist, true⟩ := by
    unfold resolveUpdown
    rw [if_pos ⟨hconf', hne⟩]
  obtain ⟨hmem, hmax, hdecomp⟩ := most_common_spec hist hne
  refine ⟨?_, ?_, hmem, hmax, hdecomp, ?_⟩
  · simp only [processPage, hfb]
  · simp only [processPage, hfb]
  · intro h0
    have hcond : ¬ ((landscapeStage env img).is_portrait = true ∧ most_common hist ≠ 0) :=
      fun hc => hc.2 h0
    simp only [processPage, hfb, doubleCheck]
    simp only [hcond, if_false, if_neg hcond]
    exact h0

/-- A concrete environment over `Image := Int`: a portrait page with no
text whose pose estimate reads `(180, 1.0)` — a contradicting raw
180-signal at low confidence. -/
def envFB : Env Int :=
  { width := fun _ => 1
    height := fun _ => 2
    hasText := fun _ => false
    osd := fun _ => ((0 : Int), (0 : ℚ))
    pose := fun _ => ((180 : Int), (1 : ℚ))
    rotate := fun im a => im + a }

/-- Witness for C3: page 4 of a document whose first three pages resolved
to 0 at high confidence (history `[0, 0, 180]` would still majority-vote
0; here `[0, 0, 180]`), with a raw pose signal of 180 at confidence 1 <
threshold 5, resolves to 0 and is marked `fallback_used`. -/
theorem fallback_majority_spec_witness :
    (processPage envFB 5 4 (0 : Int) 0 [0, 0, 180]).conf < 5 ∧
    (processPage envFB 5 4 (0 : Int) 0 [0, 0, 180]).used_fallback = true ∧
    (processPage envFB 5 4 (0 : Int) 0 [0, 0, 180]).applied_updown = 0 := by
  have h := fallback_majority_spec envFB 5 4 (0 : Int) 0 [0, 0, 180] (by decide) (by decide)
  exact ⟨by decide, h.1, h.2.2.2.2.2 (by decide)⟩

theorem runPages_getElem {Image : Type} (env : Env Image) (T : ℚ) :
    ∀ (pages : List (Image × Int)) (i : Nat) (h0 : List Int) (k : Nat)
      (hk : k < pages.length),
      (runPages env T pages i h0)[k]? =
        some (processPage env T (i + k) pages[k].1 pages[k].2
          (historyAt env T (pages.take k) i h0)) := by
  intro pages
  induction pages with
  | nil => intro i h0 k hk; cases hk
  | cons pc rest ih =>
      intro i h0 k hk
      cases k with
      | zero => simp [runPages, historyAt]
      | succ k =>
          simp only [runPages, List.getElem?_cons_succ]
          have hi : i + 1 + k = i + (k + 1) := by omega
          rw [ih (i + 1) ((processPage env T i pc.1 pc.2 h0).history) k
            (Nat.lt_of_succ_lt_succ hk), hi]
          rfl

/-- C4: `high_conf_updown_rots` is mutated only by appending — a page
appends its fallback-stage `applied_updown` exactly when its post-fusion
confidence is at or above the threshold; a page that used the fallback
leaves the history unchanged; and in a document run (history starts empty
at page 1) the history consulted by the page at position `k` is exactly
the one built by the pages strictly before it. -/
theorem fallback_history_invariant {Image : Type} (env : Env Image) (T : ℚ) :
    (∀ (i : Nat) (img : Image) (cur : Int) (h : List Int),
        (processPage env T i img cur h).history =
          (if (processPage env T i img cur h).conf ≥ T then
            h ++ [(processPage env T i img cur h).applied_before_check] else h)) ∧
    (∀ (i : Nat) (img : Image) (cur : Int) (h : List Int),
        (processPage env T i img cur h).used_fallback = true →
          (processPage env T i img cur h).history = h) ∧
    (∀ (pages : List (Image × Int)) (k : Nat) (hk : k < pages.length),
        (runPages env T pages 1 [])[k]? =
          some (processPage env T (1 + k) pages[k].1 pages[k].2
            (historyAt env T (pages.take k) 1 []))) := by
  refine ⟨fun i img cur h => rfl, ?_, fun pages k hk => runPages_getElem env T pages 1 [] k hk⟩
  intro i img cur h hf
  by_cases hc : (fuseUpdown env T (portraitImage env img)).conf < T ∧ h ≠ []
  · simp only [processPage]
    rw [if_neg (not_le.mpr hc.1)]
  · exfalso
    have hfalse : (processPage env T i img cur h).used_fallback = false := by
      simp only [processPage, resolveUpdown, if_neg hc]
    rw [hf] at hfalse
    cases hfalse

/-- Witness for C4: a fallback page (page 2, history `[180]`) leaves the
history unchanged, and in a one-page document the page consults the empty
initial history. -/
theorem fallback_history_invariant_witness :
    (processPage envFB 5 2 (0 : Int) 0 [180]).history = [180] ∧
    (runPages envFB 5 [((0 : Int), (0 : Int))] 1 [])[0]? =
      some (processPage envFB 5 (1 + 0) (0 : Int) (0 : Int) (historyAt envFB 5 [] 1 [])) := by
  refine ⟨(fallback_history_invariant envFB 5).2.1 2 (0 : Int) 0 [180] (by decide), ?_⟩
  exact (fallback_history_invariant envFB 5).2.2 [((0 : Int), (0 : Int))] 0 (by decide)

/-- A page that is portrait, has text, and whose OSD on the (un-rotated)
portrait image reports hint 0 at or above the threshold resolves to a zero
total rotation and is not counted as changed (its stored rotation, being a
canonical value in `[0, 360)`, is reproduced exactly). -/
theorem processPage_upright_case {Image : Type} (env : Env Image) (T : ℚ) (i : Nat)
    (img : Image) (cur : Int) (h : List Int)
    (hp : env.width img ≤ env.height img)
    (ht : env.hasText img = true)
    (hosd : (env.osd img).1 = 0)
    (hconf : T ≤ (env.osd img).2)
    (hcur0 : 0 ≤ cur) (hcur1 : cur < 360) :
    (processPage env T i img cur h).total_rotation = 0 ∧
    (processPage env T i img cur h).new_rotation = cur ∧
    (processPage env T i img cur h).changed = false := by
  have hls : landscapeStage env img = ⟨true, 0, 10, false⟩ := by
    unfold landscapeStage
    rw [if_pos hp]
  have hpimg : portraitImage env img = img := by
    unfold portraitImage
    rw [hls]
    simp
  have hstep : stepA env img = ⟨(env.osd img).1, (env.osd img).2, true⟩ := by
    unfold stepA
    rw [if_pos ht]
  have hfuse : fuseUpdown env T img =
      ⟨(env.osd img).1, (env.osd img).2, true, false, false⟩ := by
    unfold fuseUpdown
    rw [hstep]
    rw [if_neg (not_lt.mpr hconf)]
  have hfb : resolveUpdown T (env.osd img).1 (env.osd img).2 h =
      ⟨snap_rotation_to_allowed (env.osd img).1 [0, 180], false⟩ := by
    unfold resolveUpdown
    rw [if_neg (fun hc => absurd hc.1 (not_lt.mpr hconf))]
  have hsnap : snap_rotation_to_allowed (env.osd img).1 [0, 180] = 0 := by
    rw [hosd]
    decide
  have hdc : doubleCheck env true (env.osd img).1 (env.osd img).2 img 0 =
      ⟨0, false, false, false⟩ := by
    unfold doubleCheck
    rw [if_neg (fun hc => hc.2 rfl)]
  have hmod : cur % 360 = cur := Int.emod_eq_of_lt hcur0 hcur1
  refine ⟨?_, ?_, ?_⟩ <;>
    simp [processPage, hpimg, hls, hfuse, hfb, hsnap, hdc, hmod]

/-- C8: for a document in which every page is portrait-classified, has
text, and gets OSD hint 0 at confidence at or above the threshold on its
(un-rotated) portrait image, and whose stored rotations are canonical
(in `[0, 360)`, as the data model requires), every page's total rotation
is 0, every stored rotation is reproduced unchanged, and the changed-page
count is 0. -/
theorem idempotent_document {Image : Type} (env : Env Image) (T : ℚ)
    (pages : List (Image × Int))
    (hp : ∀ pc ∈ pages,
        env.width pc.1 ≤ env.height pc.1 ∧
        env.hasText pc.1 = true ∧
        (env.osd pc.1).1 = 0 ∧
        T ≤ (env.osd pc.1).2 ∧
        0 ≤ pc.2 ∧ pc.2 < 360) :
    (∀ o ∈ (processDocument env T pages).outcomes,
        o.total_rotation = 0 ∧ o.changed = false) ∧
    (processDocument env T pages).changed = 0 := by
  have main : ∀ (ps : List (Image × Int)) (i : Nat) (h0 : List Int),
      (∀ pc ∈ ps,
        env.width pc.1 ≤ env.height pc.1 ∧
        env.hasText pc.1 = true ∧
        (env.osd pc.1).1 = 0 ∧
        T ≤ (env.osd pc.1).2 ∧
        0 ≤ pc.2 ∧ pc.2 < 360) →
      ∀ o ∈ runPages env T ps i h0, o.total_rotation = 0 ∧ o.changed = false := by
    intro ps
    induction ps with
    | nil =>
        intro i h0 _ o ho
        simp only [runPages] at ho
        cases ho
    | cons pc rest ih =>
        intro i h0 hcond o ho
        simp only [runPages] at ho
        rcases List.mem_cons.mp ho with ho | ho
        · obtain ⟨h1, h2, h3, h4, h5, h6⟩ := hcond pc (List.mem_cons_self pc rest)
          obtain ⟨ha, -, hc⟩ := processPage_upright_case env T i pc.1 pc.2 h0 h1 h2 h3 h4 h5 h6
          rw [ho]
          exact ⟨ha, hc⟩
        · exact ih (i + 1) _ (fun q hq => hcond q (List.mem_cons_of_mem pc hq)) o ho
  refine ⟨fun o ho => main pages 1 [] hp o ho, ?_⟩
  have hall := main pages 1 [] hp
  simp only [processDocument]
  rw [List.length_eq_zero, List.filter_eq_nil_iff]
  intro o ho
  rw [(hall o ho).2]
  simp

/-- An already-correct all-text portrait document environment: every page
reads OSD hint 0 at confidence 7. -/
def envID : Env Int :=
  { width := fun _ => 1
    height := fun _ => 2
    hasText := fun _ => true
    osd := fun _ => ((0 : Int), (7 : ℚ))
    pose := fun _ => ((0 : Int), (0 : ℚ))
    rotate := fun im a => im + a }

/-- Witness for C8: a two-page already-correct document (stored rotations
0 and 90) yields zero changed pages. -/
theorem idempotent_document_witness :
    (processDocument envID 5 [((0 : Int), (0 : Int)), ((0 : Int), (90 : Int))]).changed = 0 := by
  exact (idempotent_document envID 5 [((0 : Int), (0 : Int)), ((0 : Int), (90 : Int))]
    (by decide)).2

/-- C10: when a page's post-fusion confidence is at or above the
threshold, its fallback-stage `applied_updown` is appended to the history
before the double-check runs; a double-check revert therefore changes only
the page's own final `applied_updown` (forced to 0) while the appended 180
entry remains in the history for later pages' majority votes. -/
theorem history_keeps_reverted_entry {Image : Type} (env : Env Image) (T : ℚ) (i : Nat)
    (img : Image) (cur : Int) (hist : List Int)
    (hconf : T ≤ (processPage env T i img cur hist).conf)
    (hrev : (processPage env T i img cur hist).dc_reverted = true) :
    (processPage env T i img cur hist).used_fallback = false ∧
    (processPage env T i img cur hist).applied_before_check = 180 ∧
    (processPage env T i img cur hist).history = hist ++ [180] ∧
    (processPage env T i img cur hist).applied_updown = 0 := by
  have hconf' : T ≤ (fuseUpdown env T (portraitImage env img)).conf := hconf
  have hfb : resolveUpdown T (fuseUpdown env T (portraitImage env img)).rot
      (fuseUpdown env T (portraitImage env img)).conf hist =
      ⟨snap_rotation_to_allowed (fuseUpdown env T (portraitImage env img)).rot [0, 180],
        false⟩ := by
    unfold resolveUpdown
    rw [if_neg (fun hc => absurd hc.1 (not_lt.mpr hconf'))]
  simp only [processPage, hfb] at hrev ⊢
  by_cases hdc : (landscapeStage env img).is_portrait = true ∧
      snap_rotation_to_allowed (fuseUpdown env T (portraitImage env img)).rot [0, 180] ≠ 0
  · have hsnap : snap_rotation_to_allowed
        (fuseUpdown env T (portraitImage env img)).rot [0, 180] = 180 := by
      rcases snap_updown_cases (fuseUpdown env T (portraitImage env img)).rot with e | e
      · exact absurd e hdc.2
      · exact e
    rw [hsnap] at hrev ⊢
    simp only [doubleCheck] at hrev ⊢
    have h180 : (landscapeStage env img).is_portrait = true ∧ (180 : Int) ≠ 0 :=
      ⟨hdc.1, by decide⟩
    rw [if_pos h180] at hrev ⊢
    by_cases hsc : (if env.hasText (portraitImage env img) = true then
        (if (fuseUpdown env T (portraitImage env img)).rot = 0 then
          (fuseUpdown env T (portraitImage env img)).conf else 0)
      else
        (if (env.osd (portraitImage env img)).1 = 0 then
          (env.osd (portraitImage env img)).2 else 0)) >
        (if (env.osd (env.rotate (portraitImage env img) 180)).1 = 0 then
          (env.osd (env.rotate (portraitImage env img) 180)).2 else 0)
    · rw [if_pos hsc] at hrev ⊢
      have hge : (fuseUpdown env T (portraitImage env img)).conf ≥ T := hconf'
      simp [hge]
    · rw [if_neg hsc] at hrev
      simp at hrev
  · simp only [doubleCheck] at hrev
    rw [if_neg hdc] at hrev
    simp at hrev

/-- The claim's reachability scenario: a no-text portrait page whose pose
signal yields `(180, 10.0)`, whose fresh OSD on the un-rotated image
reports `(0, 2.0)` and whose OSD on the 180-rotated image reports
`(180, 9.0)` (so the rotated image is not judged upright and scores 0). -/
def envRevert : Env Int :=
  { width := fun _ => 1
    height := fun _ => 2
    hasText := fun _ => false
    osd := fun im => if im = 180 then ((180 : Int), (9 : ℚ)) else ((0 : Int), (2 : ℚ))
    pose := fun _ => ((180 : Int), (10 : ℚ))
    rotate := fun im a => im + a }

/-- Witness for C10: in the scenario above the page's confidence is 10 ≥
threshold 5, the double-check reverts, the final `applied_updown` is 0,
and the previously appended 180 entry remains in the history. -/
theorem history_keeps_reverted_entry_witness :
    (processPage envRevert 5 1 (0 : Int) 0 []).history = [180] ∧
    (processPage envRevert 5 1 (0 : Int) 0 []).applied_updown = 0 ∧
    (processPage envRevert 5 1 (0 : Int) 0 []).dc_reverted = true := by
  have h := history_keeps_reverted_entry envRevert 5 1 (0 : Int) 0 []
    (by decide) (by decide)
  exact ⟨h.2.2.1, h.2.2.2, by decide⟩

/-- Witness for C7: at `rotation = 91` and allowed list `[0, 180]` the snap
result is a member of the list and its distance is at most the distance
to `180`. -/
theorem snap_rotation_to_allowed_spec_witness :
    snap_rotation_to_allowed 91 (0 :: [180]) ∈ 0 :: [180] ∧
    circularDistance 91 (snap_rotation_to_allowed 91 (0 :: [180])) ≤
      circularDistance 91 180 := by
  obtain ⟨h1, h2, -⟩ := snap_rotation_to_allowed_spec.1 91 0 [180]
  exact ⟨h1, h2 180 (by decide)⟩

/-- Witness for C9: when every file name exists the search is exhausted
and the fatal error is reported. -/
theorem determine_output_path_spec_witness :
    determine_output_path (fun _ => true) "doc" ".pdf" = none := by
  exact (determine_output_path_spec.2.1 (fun _ => true) "doc" ".pdf").mpr (fun c _ => rfl)
